import Mathlib

/-!
Verification of the concurrent execution core of the maori-llm-benchmark
repository: the budgeted scheduler (`createLimiter` in `src/core/throttle.ts`),
the retry wrapper (`withRetry` in `src/core/runner.ts`), the run orchestrator
(`runBenchmark`), the aggregator (`summarize`) and the trace naming
(`writeTrace` / `sanitize`).

Each definition is a shallow embedding of the corresponding TypeScript
function; machine integers and `Date.now()` timestamps are modelled as `Nat`
(JS `now - t > windowMs` on a timestamp `t` in the future is `false`, matching
truncated `Nat` subtraction), scores as `Rat`, strings as `List Char`.
-/

namespace Throttle

/-- `LimiterOptions` from `createLimiter`. -/
structure LimiterOptions where
  maxConcurrent : Nat
  maxRequestsPerMinute : Nat
  maxTokensPerMinute : Nat
deriving DecidableEq, Repr

/-- A queue entry: only its estimated token cost matters for admission;
`fn`, `resolve`, `reject` are opaque callbacks. -/
structure QueueItem where
  tokens : Nat
deriving DecidableEq, Repr

/-- The limiter's mutable state: `queue`, `active`, and the two rolling logs
`requestsTimestamps` and `tokensTimestamps`. -/
structure LimiterState where
  queue : List QueueItem
  active : Nat
  requestsTimestamps : List Nat
  tokensTimestamps : List (Nat × Nat)
deriving DecidableEq, Repr

/-- The `while`/`shift` loop of `prune` on the request log: drop leading
timestamps with `now - t > windowMs` (windowMs = 60000). -/
def pruneReq (now : Nat) : List Nat → List Nat
  | [] => []
  | t :: rest => if now - t > 60000 then pruneReq now rest else t :: rest

/-- The `while`/`shift` loop of `prune` on the token log. -/
def pruneTok (now : Nat) : List (Nat × Nat) → List (Nat × Nat)
  | [] => []
  | e :: rest => if now - e.1 > 60000 then pruneTok now rest else e :: rest

/-- `tokensTimestamps.reduce((acc, e) => acc + e.tokens, 0)`. -/
def tokenSum (l : List (Nat × Nat)) : Nat := (l.map (fun e => e.2)).sum

/-- The observable effect of one `runNext` call: return with nothing done,
schedule `setTimeout(runNext, ms)`, or admit an item and start executing it. -/
inductive RunEffect where
  | noop : RunEffect
  | retryAfter (ms : Nat) : RunEffect
  | admitted (item : QueueItem) : RunEffect
deriving DecidableEq, Repr

/-- Shallow embedding of `runNext` (src/core/throttle.ts): the synchronous
portion up to (and including) admission, which runs atomically — there is no
`await` between the `active` check and the log pushes. -/
def runNext (opts : LimiterOptions) (now : Nat) (s : LimiterState) :
    LimiterState × RunEffect :=
  if opts.maxConcurrent ≤ s.active then (s, .noop)
  else
    match s.queue with
    | [] => (s, .noop)
    | item :: rest =>
      let reqs := pruneReq now s.requestsTimestamps
      let toks := pruneTok now s.tokensTimestamps
      let pendingRequests := reqs.length
      let tokensUsed := tokenSum toks
      if opts.maxRequestsPerMinute ≤ pendingRequests ∨
          opts.maxTokensPerMinute < tokensUsed + item.tokens then
        ({ queue := item :: rest, active := s.active,
           requestsTimestamps := reqs, tokensTimestamps := toks },
         .retryAfter 250)
      else
        ({ queue := rest, active := s.active + 1,
           requestsTimestamps := reqs ++ [now],
           tokensTimestamps := toks ++ [(now, item.tokens)] },
         .admitted item)

/-- `schedule(fn, estimatedTokens = 500)`: push an entry on the queue; a call
omitting the argument is modelled by `none`. -/
def scheduleOp (estimatedTokens : Option Nat) (s : LimiterState) : LimiterState :=
  { s with queue := s.queue ++ [⟨estimatedTokens.getD 500⟩] }

/-- The `finally` block of an admitted task: `active -= 1` (settlement). A
settlement only ever happens for a previously admitted, still-active task. -/
def settleOp (s : LimiterState) : LimiterState := { s with active := s.active - 1 }

/-- The limiter's initial state inside `createLimiter`. -/
def initState : LimiterState :=
  { queue := [], active := 0, requestsTimestamps := [], tokensTimestamps := [] }

/-- One atomic step of the limiter: a `schedule` call, a `runNext` invocation
(at some clock reading `now`), or a task settlement. -/
inductive Step (opts : LimiterOptions) : LimiterState → LimiterState → Prop where
  | schedule (tok : Option Nat) {s : LimiterState} : Step opts s (scheduleOp tok s)
  | runNext (now : Nat) {s : LimiterState} : Step opts s (runNext opts now s).1
  | settle {s : LimiterState} (h : 0 < s.active) : Step opts s (settleOp s)

/-- States reachable from the freshly created limiter. -/
inductive Reachable (opts : LimiterOptions) : LimiterState → Prop where
  | init : Reachable opts initState
  | step {s t : LimiterState} : Reachable opts s → Step opts s t → Reachable opts t

lemma pruneReq_length_le (now : Nat) (l : List Nat) :
    (pruneReq now l).length ≤ l.length := by
  induction l with
  | nil => simp [pruneReq]
  | cons t rest ih =>
    simp only [pruneReq]
    split
    · exact le_trans ih (by simp)
    · simp

lemma pruneTok_sum_le (now : Nat) (l : List (Nat × Nat)) :
    tokenSum (pruneTok now l) ≤ tokenSum l := by
  induction l with
  | nil => simp [pruneTok]
  | cons e rest ih =>
    simp only [pruneTok]
    split
    · exact le_trans ih (by simp [tokenSum])
    · simp

lemma tokenSum_append (l₁ l₂ : List (Nat × Nat)) :
    tokenSum (l₁ ++ l₂) = tokenSum l₁ + tokenSum l₂ := by
  simp [tokenSum]

lemma runNext_active_le (opts : LimiterOptions) (now : Nat) (s : LimiterState)
    (h : s.active ≤ opts.maxConcurrent) :
    (runNext opts now s).1.active ≤ opts.maxConcurrent := by
  unfold runNext
  split
  · exact h
  · split
    · exact h
    · dsimp only
      split
      · exact h
      · show s.active + 1 ≤ opts.maxConcurrent
        omega

lemma runNext_logs_le (opts : LimiterOptions) (now : Nat) (s : LimiterState)
    (h1 : s.requestsTimestamps.length ≤ opts.maxRequestsPerMinute)
    (h2 : tokenSum s.tokensTimestamps ≤ opts.maxTokensPerMinute) :
    (runNext opts now s).1.requestsTimestamps.length ≤ opts.maxRequestsPerMinute ∧
      tokenSum (runNext opts now s).1.tokensTimestamps ≤ opts.maxTokensPerMinute := by
  unfold runNext
  split
  · exact ⟨h1, h2⟩
  · split
    · exact ⟨h1, h2⟩
    · rename_i item rest heq
      dsimp only
      split
      · exact ⟨le_trans (pruneReq_length_le now _) h1,
          le_trans (pruneTok_sum_le now _) h2⟩
      · rename_i hcond
        push_neg at hcond
        constructor
        · show (pruneReq now s.requestsTimestamps ++ [now]).length ≤ _
          have := hcond.1
          simp only [List.length_append, List.length_cons, List.length_nil]
          omega
        · show tokenSum (pruneTok now s.tokensTimestamps ++ [(now, item.tokens)]) ≤ _
          rw [tokenSum_append]
          have := hcond.2
          simp only [tokenSum, List.map_cons, List.map_nil, List.sum_cons,
            List.sum_nil] at *
          omega

end Throttle

namespace Throttle

/-- Claim C1: in every reachable state of the limiter, the number of
concurrently executing tasks (`active`) is at most `opts.maxConcurrent`:
admission is refused while `active ≥ maxConcurrent`, `active` is incremented
only on admission and decremented once per settlement. -/
theorem limiter_active_le_maxConcurrent (opts : LimiterOptions) (s : LimiterState)
    (h : Reachable opts s) : s.active ≤ opts.maxConcurrent := by
  induction h with
  | init => simp [initState]
  | step _ hs ih =>
    cases hs with
    | schedule tok => simpa [scheduleOp] using ih
    | runNext now => exact runNext_active_le opts now _ ih
    | settle h0 =>
      simp only [settleOp]
      omega

theorem limiter_active_le_maxConcurrent_witness :
    ((runNext ⟨2, 10, 1000⟩ 5 (scheduleOp (some 100) initState)).1).active ≤
      (⟨2, 10, 1000⟩ : LimiterOptions).maxConcurrent :=
  limiter_active_le_maxConcurrent _ _
    (Reachable.step (Reachable.step Reachable.init (Step.schedule (some 100)))
      (Step.runNext 5))

/-- Claim C2: in every reachable state of the limiter, the request log holds
at most `maxRequestsPerMinute` entries and the token log sums to at most
`maxTokensPerMinute`: both logs are pruned to the trailing 60 seconds before
each admission decision, and an item is admitted only if
`pendingRequests < maxRequestsPerMinute` and
`tokensUsed + item.tokens ≤ maxTokensPerMinute`; admission and its log pushes
are a single critical section, so no second concurrently admitted item can
overshoot a window. -/
theorem limiter_window_budgets (opts : LimiterOptions) (s : LimiterState)
    (h : Reachable opts s) :
    s.requestsTimestamps.length ≤ opts.maxRequestsPerMinute ∧
      tokenSum s.tokensTimestamps ≤ opts.maxTokensPerMinute := by
  induction h with
  | init => simp [initState, tokenSum]
  | step _ hs ih =>
    cases hs with
    | schedule tok => simpa [scheduleOp] using ih
    | runNext now => exact runNext_logs_le opts now _ ih.1 ih.2
    | settle h0 => simpa [settleOp] using ih

theorem limiter_window_budgets_witness :
    ((runNext ⟨2, 10, 1000⟩ 5 (scheduleOp none initState)).1).requestsTimestamps.length ≤
        (⟨2, 10, 1000⟩ : LimiterOptions).maxRequestsPerMinute ∧
      tokenSum ((runNext ⟨2, 10, 1000⟩ 5 (scheduleOp none initState)).1).tokensTimestamps ≤
        (⟨2, 10, 1000⟩ : LimiterOptions).maxTokensPerMinute :=
  limiter_window_budgets _ _
    (Reachable.step (Reachable.step Reachable.init (Step.schedule none))
      (Step.runNext 5))

/-- A state with one active task under `maxConcurrent = 1` and a queued item:
the admission check is blocked on concurrency. -/
def concurrencyBlockedState : LimiterState :=
  { queue := [⟨100⟩], active := 1, requestsTimestamps := [], tokensTimestamps := [] }

/-- A state whose head item's estimated cost (2000) exceeds the token budget
headroom, so the budget check rejects it. -/
def budgetBlockedState : LimiterState :=
  { queue := [⟨2000⟩], active := 0, requestsTimestamps := [], tokensTimestamps := [] }

/-- Claim C3 counterexample: with `maxConcurrent = 1` and one active task, the
admission attempt finds the queue nonempty and rejects, yet no 250 ms retry is
scheduled: `runNext` returns at the `active >= maxConcurrent` guard before
touching the queue, and the next attempt comes from a settlement's
`setImmediate`, not from a `setTimeout(runNext, 250)`. -/
theorem runNext_concurrency_rejection_no_retry :
    (⟨1, 10, 1000⟩ : LimiterOptions).maxConcurrent ≤ concurrencyBlockedState.active ∧
      concurrencyBlockedState.queue ≠ [] ∧
      (runNext ⟨1, 10, 1000⟩ 0 concurrencyBlockedState).2 ≠ RunEffect.retryAfter 250 ∧
      (runNext ⟨1, 10, 1000⟩ 0 concurrencyBlockedState).2 = RunEffect.noop := by
  decide

/-- Claim C3 (amended): when the rate or token budget check rejects the head
item, the item is returned to the front of the queue (queue order preserved)
and a 250 ms retry is scheduled; when the rejection is due to
`active ≥ maxConcurrent`, the item stays in the queue untouched and no retry
timer is scheduled — the next admission attempt is triggered by a task's
settlement instead. -/
theorem runNext_rejection_behaviour (opts : LimiterOptions) (now : Nat)
    (s : LimiterState) (item : QueueItem) (rest : List QueueItem) :
    (opts.maxConcurrent ≤ s.active → runNext opts now s = (s, RunEffect.noop)) ∧
      (s.active < opts.maxConcurrent → s.queue = item :: rest →
        (opts.maxRequestsPerMinute ≤ (pruneReq now s.requestsTimestamps).length ∨
          opts.maxTokensPerMinute <
            tokenSum (pruneTok now s.tokensTimestamps) + item.tokens) →
        (runNext opts now s).2 = RunEffect.retryAfter 250 ∧
          (runNext opts now s).1.queue = item :: rest) := by
  constructor
  · intro h
    unfold runNext
    rw [if_pos h]
  · intro hlt hq hcond
    unfold runNext
    rw [if_neg (by omega), hq]
    dsimp only
    rw [if_pos hcond]
    exact ⟨rfl, rfl⟩

theorem runNext_rejection_behaviour_witness :
    runNext ⟨1, 10, 1000⟩ 0 concurrencyBlockedState =
        (concurrencyBlockedState, RunEffect.noop) ∧
      (runNext ⟨2, 10, 1000⟩ 0 budgetBlockedState).2 = RunEffect.retryAfter 250 ∧
      (runNext ⟨2, 10, 1000⟩ 0 budgetBlockedState).1.queue = [⟨2000⟩] :=
  ⟨(runNext_rejection_behaviour ⟨1, 10, 1000⟩ 0 concurrencyBlockedState ⟨100⟩ []).1
      (by decide),
   (runNext_rejection_behaviour ⟨2, 10, 1000⟩ 0 budgetBlockedState ⟨2000⟩ []).2
      (by decide) (by decide) (by decide)⟩

/-- Claim C10: a `schedule` call omitting `estimatedTokens` enqueues the item
with the default cost of exactly 500 tokens, and the admission decision for
such an item (once concurrency and request-rate admit) compares the pruned
window's token sum plus 500 against `maxTokensPerMinute`. -/
theorem schedule_default_estimated_tokens (opts : LimiterOptions) (now : Nat)
    (s : LimiterState) (rest : List QueueItem) :
    (scheduleOp none s).queue = s.queue ++ [⟨500⟩] ∧
      scheduleOp none s = scheduleOp (some 500) s ∧
      (s.queue = ⟨500⟩ :: rest → s.active < opts.maxConcurrent →
        (pruneReq now s.requestsTimestamps).length < opts.maxRequestsPerMinute →
        ((runNext opts now s).2 = RunEffect.admitted ⟨500⟩ ↔
          tokenSum (pruneTok now s.tokensTimestamps) + 500 ≤ opts.maxTokensPerMinute)) := by
  refine ⟨rfl, rfl, ?_⟩
  intro hq hact hreq
  unfold runNext
  rw [if_neg (by omega), hq]
  dsimp only
  split
  · rename_i hcond
    have hx : opts.maxTokensPerMinute < tokenSum (pruneTok now s.tokensTimestamps) + 500 := by
      rcases hcond with h | h
      · omega
      · exact h
    simp only [RunEffect.retryAfter.injEq]
    constructor
    · intro he
      exact absurd he (by simp)
    · intro ht
      omega
  · rename_i hcond
    push_neg at hcond
    simp only
    constructor
    · intro _
      exact hcond.2
    · intro _
      trivial

theorem schedule_default_estimated_tokens_witness :
    (scheduleOp none initState).queue = initState.queue ++ [⟨500⟩] ∧
      ((runNext ⟨2, 10, 1000⟩ 0 (scheduleOp none initState)).2 =
          RunEffect.admitted ⟨500⟩ ↔
        tokenSum (pruneTok 0 (scheduleOp none initState).tokensTimestamps) + 500 ≤
          (⟨2, 10, 1000⟩ : LimiterOptions).maxTokensPerMinute) :=
  ⟨(schedule_default_estimated_tokens ⟨2, 10, 1000⟩ 0 initState []).1,
   (schedule_default_estimated_tokens ⟨2, 10, 1000⟩ 0 (scheduleOp none initState) []).2.2
      (by decide) (by decide) (by decide)⟩

end Throttle

namespace Retry

/-- The status slot of a thrown JS error value: a number, or some present
non-numeric value (which fails both `status === 429` and
`typeof status === "number"`). -/
inductive JsStatus where
  | num (n : Int) : JsStatus
  | nonNum : JsStatus
deriving DecidableEq, Repr

/-- The parts of a thrown error that `withRetry` inspects
(`(err as any)?.status` and `(err as any)?.response?.status`) together with
the message the orchestrator later records. -/
structure JsError where
  status : Option JsStatus
  responseStatus : Option JsStatus
  message : List Char
deriving DecidableEq, Repr

/-- `const status = (err as any)?.status ?? (err as any)?.response?.status`. -/
def resolvedStatus (e : JsError) : Option JsStatus :=
  e.status.orElse (fun _ => e.responseStatus)

/-- `status === 429 || (typeof status === "number" && status >= 500)`. -/
def retriable (e : JsError) : Bool :=
  match resolvedStatus e with
  | some (.num n) => n == 429 || decide (500 ≤ n)
  | some .nonNum => false
  | none => false

/-- The loop body of `withRetry` (src/core/runner.ts). The side-effecting
`fn` is modelled by an oracle `f` giving the outcome of each invocation
(indexed from 0), and `Math.floor(Math.random() * 200)` by a jitter oracle
`j`. `rem` is the number of retries still allowed (`retries - attempt` in the
source's counters; the source re-checks `attempt > retries` after
incrementing, which is `rem = 0` here). Returns the final outcome, the total
number of invocations of `fn`, and the list of sleep durations
`delay + jitter` in order; `delay` is updated by
`Math.min(8000, Math.round(delay * 2))` after each sleep. -/
def withRetryGo {α : Type} (f : Nat → Except JsError α) (j : Nat → Nat) :
    Nat → Nat → Nat → Except JsError α × Nat × List Nat
  | rem, attempt, delay =>
    match f attempt with
    | .ok v => (.ok v, attempt + 1, [])
    | .error e =>
      match rem with
      | 0 => (.error e, attempt + 1, [])
      | rem' + 1 =>
        if retriable e then
          let r := withRetryGo f j rem' (attempt + 1) (min 8000 (delay * 2))
          (r.1, r.2.1, (delay + j attempt) :: r.2.2)
        else (.error e, attempt + 1, [])

/-- `withRetry(fn, retries)`: loop starting with `attempt = 0`, `delay = 500`. -/
def withRetry {α : Type} (f : Nat → Except JsError α) (j : Nat → Nat)
    (retries : Nat) : Except JsError α × Nat × List Nat :=
  withRetryGo f j retries 0 500

/-- The base backoff delay before the k-th retry (0-indexed): 500 ms, doubled
after each retry and capped at 8000 ms. -/
def backoffDelay : Nat → Nat
  | 0 => 500
  | n + 1 => min 8000 (backoffDelay n * 2)

/-- The delay value after threading `k` doubling-and-cap updates from `d`. -/
def delayAt (d : Nat) : Nat → Nat
  | 0 => d
  | k + 1 => delayAt (min 8000 (d * 2)) k

lemma delayAt_succ (d : Nat) (k : Nat) :
    delayAt d (k + 1) = min 8000 (delayAt d k * 2) := by
  induction k generalizing d with
  | zero => simp [delayAt]
  | succ k ih =>
    show delayAt (min 8000 (d * 2)) (k + 1) = _
    rw [ih]
    rfl

lemma delayAt_500 (k : Nat) : delayAt 500 k = backoffDelay k := by
  induction k with
  | zero => rfl
  | succ k ih => rw [delayAt_succ, ih, backoffDelay]

lemma backoffDelay_bounds (n : Nat) :
    500 ≤ backoffDelay n ∧ backoffDelay n ≤ 8000 := by
  induction n with
  | zero => simp [backoffDelay]
  | succ n ih =>
    simp only [backoffDelay]
    omega

lemma backoffDelay_mono {i k : Nat} (h : i ≤ k) :
    backoffDelay i ≤ backoffDelay k := by
  induction k with
  | zero => simp [Nat.le_zero.mp h]
  | succ k ih =>
    rcases Nat.lt_or_ge i (k + 1) with hlt | hge
    · have h1 := ih (Nat.lt_succ_iff.mp hlt)
      have h2 := backoffDelay_bounds k
      simp only [backoffDelay]
      omega
    · have : i = k + 1 := le_antisymm h hge
      subst this
      exact le_refl _

lemma withRetryGo_count_le {α : Type} (f : Nat → Except JsError α)
    (j : Nat → Nat) (rem attempt delay : Nat) :
    (withRetryGo f j rem attempt delay).2.1 ≤ attempt + rem + 1 := by
  induction rem generalizing attempt delay with
  | zero =>
    unfold withRetryGo
    cases f attempt <;> dsimp only <;> omega
  | succ rem ih =>
    unfold withRetryGo
    cases f attempt with
    | ok v => dsimp only; omega
    | error e =>
      dsimp only
      split
      · dsimp only
        have := ih (attempt + 1) (min 8000 (delay * 2))
        omega
      · dsimp only
        omega

lemma withRetryGo_error_prop {α : Type} (f : Nat → Except JsError α)
    (j : Nat → Nat) (rem attempt delay : Nat) (e : JsError)
    (h : (withRetryGo f j rem attempt delay).1 = Except.error e) :
    f ((withRetryGo f j rem attempt delay).2.1 - 1) = Except.error e := by
  induction rem generalizing attempt delay with
  | zero =>
    unfold withRetryGo at h ⊢
    cases hf : f attempt with
    | ok v => rw [hf] at h; simp at h
    | error e0 =>
      rw [hf] at h
      dsimp only at h ⊢
      simp only [Except.error.injEq] at h
      simp only [Nat.add_sub_cancel]
      rw [hf, h]
  | succ rem ih =>
    unfold withRetryGo at h ⊢
    cases hf : f attempt with
    | ok v => rw [hf] at h; simp at h
    | error e0 =>
      rw [hf] at h
      dsimp only at h ⊢
      by_cases hr : retriable e0 = true
      · rw [if_pos hr] at h ⊢
        exact ih (attempt + 1) (min 8000 (delay * 2)) h
      · rw [if_neg hr] at h ⊢
        dsimp only at h ⊢
        simp only [Except.error.injEq] at h
        simp only [Nat.add_sub_cancel]
        rw [hf, h]

lemma withRetryGo_waits {α : Type} (f : Nat → Except JsError α)
    (j : Nat → Nat) (rem attempt delay : Nat) (k : Nat)
    (hk : k < (withRetryGo f j rem attempt delay).2.2.length) :
    (withRetryGo f j rem attempt delay).2.2.getD k 0 =
      delayAt delay k + j (attempt + k) := by
  induction rem generalizing attempt delay k with
  | zero =>
    unfold withRetryGo at hk
    cases hf : f attempt <;> simp [hf] at hk
  | succ rem ih =>
    unfold withRetryGo at hk ⊢
    cases hf : f attempt with
    | ok v => rw [hf] at hk; simp at hk
    | error e0 =>
      rw [hf] at hk
      dsimp only at hk ⊢
      by_cases hr : retriable e0 = true
      · rw [if_pos hr] at hk ⊢
        cases k with
        | zero => simp [delayAt]
        | succ k =>
          dsimp only at hk ⊢
          simp only [List.getD_cons_succ, List.length_cons] at hk ⊢
          rw [ih (attempt + 1) (min 8000 (delay * 2)) k (by omega)]
          have hx : attempt + 1 + k = attempt + (k + 1) := by omega
          rw [hx]
          rfl
      · rw [if_neg hr] at hk
        simp at hk

/-- Claim C4: `withRetry` classifies a failure as retriable iff its resolved
status slot holds the number 429 or a number ≥ 500; an operation whose first
failure is non-retriable (including a missing or non-numeric status) is
invoked exactly once with the error propagated unchanged; every operation is
invoked at most `retries + 1` times; and whenever the terminal outcome is an
error it is exactly the error thrown by the last invocation. -/
theorem withRetry_error_handling {α : Type} (f : Nat → Except JsError α)
    (j : Nat → Nat) (retries : Nat) :
    (∀ e : JsError, retriable e = true ↔
        ∃ n : Int, resolvedStatus e = some (JsStatus.num n) ∧ (n = 429 ∨ 500 ≤ n)) ∧
      (∀ e : JsError, f 0 = Except.error e → retriable e = false →
        withRetry f j retries = (Except.error e, 1, [])) ∧
      (withRetry f j retries).2.1 ≤ retries + 1 ∧
      (∀ e : JsError, (withRetry f j retries).1 = Except.error e →
        f ((withRetry f j retries).2.1 - 1) = Except.error e) := by
  refine ⟨?_, ?_, ?_, ?_⟩
  · intro e
    unfold retriable
    rcases hs : resolvedStatus e with _ | s
    · simp
    · cases s with
      | num n => simp
      | nonNum => simp
  · intro e hf hr
    unfold withRetry
    cases retries with
    | zero =>
      unfold withRetryGo
      rw [hf]
    | succ r =>
      unfold withRetryGo
      rw [hf]
      dsimp only
      rw [if_neg (by simp [hr])]
  · simpa using withRetryGo_count_le f j retries 0 500
  · intro e h
    exact withRetryGo_error_prop f j retries 0 500 e h

/-- An error carrying status 404: non-retriable. -/
def err404 : JsError :=
  { status := some (JsStatus.num 404), responseStatus := none, message := ['x'] }

/-- An operation that always fails with status 404. -/
def f404 : Nat → Except JsError Nat := fun _ => Except.error err404

theorem withRetry_error_handling_witness :
    withRetry f404 (fun _ => 0) 3 = (Except.error err404, 1, []) ∧
      (withRetry f404 (fun _ => 0) 3).2.1 ≤ 3 + 1 :=
  ⟨(withRetry_error_handling f404 (fun _ => 0) 3).2.1 err404 rfl (by decide),
   (withRetry_error_handling f404 (fun _ => 0) 3).2.2.1⟩

/-- Claim C5: the backoff base delay starts at 500 ms, doubles after each
retry, and is capped at 8000 ms; each actual wait recorded by `withRetry`
equals the base delay plus the jitter drawn from [0, 200); and ignoring
jitter the base delays are monotonically non-decreasing across the attempts
of a single logical operation. -/
theorem withRetry_backoff {α : Type} (f : Nat → Except JsError α)
    (j : Nat → Nat) (retries : Nat) (hj : ∀ k, j k < 200) :
    backoffDelay 0 = 500 ∧
      (∀ n, backoffDelay (n + 1) = min 8000 (backoffDelay n * 2)) ∧
      (∀ k, k < (withRetry f j retries).2.2.length →
        (withRetry f j retries).2.2.getD k 0 = backoffDelay k + j k ∧ j k < 200) ∧
      (∀ i k, i ≤ k → backoffDelay i ≤ backoffDelay k) := by
  refine ⟨rfl, fun n => rfl, ?_, fun i k h => backoffDelay_mono h⟩
  intro k hk
  refine ⟨?_, hj k⟩
  have hw := withRetryGo_waits f j retries 0 500 k hk
  rw [delayAt_500, Nat.zero_add] at hw
  exact hw

/-- An error carrying status 500: retriable. -/
def err500 : JsError :=
  { status := some (JsStatus.num 500), responseStatus := none, message := ['y'] }

/-- An operation that always fails with status 500. -/
def f500 : Nat → Except JsError Nat := fun _ => Except.error err500

/-- A deterministic jitter oracle returning 7 ms. -/
def j7 : Nat → Nat := fun _ => 7

theorem withRetry_backoff_witness :
    (withRetry f500 j7 2).2.2.getD 0 0 = backoffDelay 0 + j7 0 ∧
      j7 0 < 200 ∧ backoffDelay 0 ≤ backoffDelay 1 :=
  ⟨((withRetry_backoff f500 j7 2 (fun _ => by show (7:Nat) < 200; decide)).2.2.1 0 (by decide)).1,
   ((withRetry_backoff f500 j7 2 (fun _ => by show (7:Nat) < 200; decide)).2.2.1 0 (by decide)).2,
   (withRetry_backoff f500 j7 2 (fun _ => by show (7:Nat) < 200; decide)).2.2.2 0 1 (by decide)⟩

end Retry

namespace Runner

/-- The fields of a `TestCase` that the orchestrator reads. -/
structure TestCase where
  id : List Char
  prompt : List Char
deriving DecidableEq, Repr

/-- An entry of `options.models`. -/
structure ModelSpec where
  name : List Char
  provider_id : List Char
deriving DecidableEq, Repr

/-- A `TestResult` record as built by `runBenchmark`. -/
structure TestResult where
  testId : List Char
  model : List Char
  provider_id : List Char
  prompt : List Char
  response : List Char
  score : Rat
  latencyMs : Nat
  error : Option (List Char)
deriving DecidableEq, Repr

/-- The settled outcome of one unit's (retried) completion call plus
evaluation: either a response text with its score, or a terminal failure
carrying the error message (`err.message`). -/
inductive UnitOutcome where
  | ok (text : List Char) (score : Rat) (latencyMs : Nat) : UnitOutcome
  | fail (message : List Char) (latencyMs : Nat) : UnitOutcome
deriving DecidableEq, Repr

/-- The `TestResult` a single unit produces: the `try` branch on success, the
`catch` branch on terminal failure (score 0, empty response, error message). -/
def runUnit (m : ModelSpec) (t : TestCase) : UnitOutcome → TestResult
  | .ok text score lat =>
    { testId := t.id, model := m.name, provider_id := m.provider_id,
      prompt := t.prompt, response := text, score := score,
      latencyMs := lat, error := none }
  | .fail msg lat =>
    { testId := t.id, model := m.name, provider_id := m.provider_id,
      prompt := t.prompt, response := [], score := 0,
      latencyMs := lat, error := some msg }

/-- The settled results of `runBenchmark`: one unit per (model, test) pair of
the cross-product (outer loop over models, inner over tests, as in the
source); `oracle` gives each unit's settled outcome. The `catch` inside each
scheduled task converts any terminal failure into an ordinary result, so the
list is total in the oracle. -/
def runBenchmarkResults (models : List ModelSpec) (suite : List TestCase)
    (oracle : ModelSpec → TestCase → UnitOutcome) : List TestResult :=
  models.flatMap (fun m => suite.map (fun t => runUnit m t (oracle m t)))

lemma runUnit_model (m : ModelSpec) (t : TestCase) (o : UnitOutcome) :
    (runUnit m t o).model = m.name := by
  cases o <;> rfl

lemma runUnit_testId (m : ModelSpec) (t : TestCase) (o : UnitOutcome) :
    (runUnit m t o).testId = t.id := by
  cases o <;> rfl

/-- Claim C6: once all units settle, the results collection has exactly
`models.length * suite.length` entries, exactly one per (model, test) pair of
the cross-product; a failing unit still contributes its entry (the oracle is
arbitrary, failures included), and the run's summary is computed only from
this complete collection. -/
theorem runBenchmark_one_result_per_unit (models : List ModelSpec)
    (suite : List TestCase) (oracle : ModelSpec → TestCase → UnitOutcome) :
    (runBenchmarkResults models suite oracle).length =
        models.length * suite.length ∧
      (runBenchmarkResults models suite oracle).map (fun r => (r.model, r.testId)) =
        models.flatMap (fun m => suite.map (fun t => (m.name, t.id))) := by
  constructor
  · induction models with
    | nil => simp [runBenchmarkResults]
    | cons m ms ih =>
      simp only [runBenchmarkResults, List.flatMap_cons, List.length_append,
        List.length_map, List.length_cons] at *
      rw [ih, Nat.succ_mul]
      omega
  · induction models with
    | nil => simp [runBenchmarkResults]
    | cons m ms ih =>
      simp only [runBenchmarkResults, List.flatMap_cons, List.map_append] at *
      rw [ih]
      congr 1
      simp [List.map_map, Function.comp, runUnit_model, runUnit_testId]

/-- Claim C7: a unit whose (retried) completion terminally fails is recorded
as a `TestResult` with score exactly 0, empty response, and the failure's
message in `error`; the failure is absorbed into the results collection
rather than propagating beyond the orchestrator. -/
theorem unit_failure_recorded (models : List ModelSpec) (suite : List TestCase)
    (oracle : ModelSpec → TestCase → UnitOutcome) (m : ModelSpec) (t : TestCase)
    (msg : List Char) (lat : Nat) (hm : m ∈ models) (ht : t ∈ suite)
    (ho : oracle m t = UnitOutcome.fail msg lat) :
    (runUnit m t (UnitOutcome.fail msg lat)).score = 0 ∧
      (runUnit m t (UnitOutcome.fail msg lat)).response = [] ∧
      (runUnit m t (UnitOutcome.fail msg lat)).error = some msg ∧
      runUnit m t (UnitOutcome.fail msg lat) ∈ runBenchmarkResults models suite oracle := by
  refine ⟨rfl, rfl, rfl, ?_⟩
  rw [← ho]
  exact List.mem_flatMap.mpr ⟨m, hm, List.mem_map.mpr ⟨t, ht, rfl⟩⟩

theorem unit_failure_recorded_witness :
    (runUnit ⟨['A'], ['p']⟩ ⟨['t'], ['q']⟩ (UnitOutcome.fail ['e'] 3)).score = 0 ∧
      (runUnit ⟨['A'], ['p']⟩ ⟨['t'], ['q']⟩ (UnitOutcome.fail ['e'] 3)).response = [] ∧
      (runUnit ⟨['A'], ['p']⟩ ⟨['t'], ['q']⟩ (UnitOutcome.fail ['e'] 3)).error = some ['e'] ∧
      runUnit ⟨['A'], ['p']⟩ ⟨['t'], ['q']⟩ (UnitOutcome.fail ['e'] 3) ∈
        runBenchmarkResults [⟨['A'], ['p']⟩] [⟨['t'], ['q']⟩]
          (fun _ _ => UnitOutcome.fail ['e'] 3) :=
  unit_failure_recorded [⟨['A'], ['p']⟩] [⟨['t'], ['q']⟩]
    (fun _ _ => UnitOutcome.fail ['e'] 3) ⟨['A'], ['p']⟩ ⟨['t'], ['q']⟩ ['e'] 3
    (by simp) (by simp) rfl

end Runner


namespace Summarize

open Runner

/-- The per-model accumulator record of `summarize`: `{ tests, sum }`. -/
structure ModelAgg where
  tests : Nat
  sum : Rat
deriving DecidableEq, Repr

/-- One step of the `for (const r of results)` loop: bump the entry keyed by
the result's model, inserting a fresh `{ tests: 1, sum: score }` entry on
first sight (JS object key insertion order). -/
def addScore : List (List Char × ModelAgg) → List Char → Rat →
    List (List Char × ModelAgg)
  | [], key, sc => [(key, ⟨1, sc⟩)]
  | (k, a) :: rest, key, sc =>
    if k = key then (k, ⟨a.tests + 1, a.sum + sc⟩) :: rest
    else (k, a) :: addScore rest key sc

/-- The accumulation loop of `summarize` over the results. -/
def accumByModel (results : List TestResult) : List (List Char × ModelAgg) :=
  results.foldl (fun acc r => addScore acc r.model r.score) []

/-- `avgScore: v.tests ? v.sum / v.tests : 0`. -/
def avgOf (a : ModelAgg) : Rat := if a.tests ≠ 0 then a.sum / a.tests else 0

/-- A model's `avgScore` as reported by the summary; a model with no entry
(no results) reads as 0. -/
def modelAvg (results : List TestResult) (m : List Char) : Rat :=
  match (accumByModel results).find? (fun p => p.1 == m) with
  | some p => avgOf p.2
  | none => 0

/-- `overallAvg: results.length ? results.reduce((acc, r) => acc + r.score, 0) / results.length : 0`. -/
def overallAvg (results : List TestResult) : Rat :=
  if results.length ≠ 0 then
    (results.foldl (fun acc r => acc + r.score) 0) / results.length
  else 0

/-- The `tests` count recorded for key `m` (0 when absent). -/
def aggTests (acc : List (List Char × ModelAgg)) (m : List Char) : Nat :=
  match acc.find? (fun p => p.1 == m) with
  | some p => p.2.tests
  | none => 0

/-- The `sum` recorded for key `m` (0 when absent). -/
def aggSum (acc : List (List Char × ModelAgg)) (m : List Char) : Rat :=
  match acc.find? (fun p => p.1 == m) with
  | some p => p.2.sum
  | none => 0

lemma aggTests_nil (m : List Char) : aggTests [] m = 0 := rfl

lemma aggSum_nil (m : List Char) : aggSum [] m = 0 := rfl

lemma aggTests_cons_pos {k m : List Char} (a : ModelAgg)
    (rest : List (List Char × ModelAgg)) (h : k = m) :
    aggTests ((k, a) :: rest) m = a.tests := by
  unfold aggTests
  rw [List.find?_cons_of_pos _ (by simp [h])]

lemma aggTests_cons_ne {k m : List Char} (a : ModelAgg)
    (rest : List (List Char × ModelAgg)) (h : ¬k = m) :
    aggTests ((k, a) :: rest) m = aggTests rest m := by
  unfold aggTests
  rw [List.find?_cons_of_neg _ (by simp [h])]

lemma aggSum_cons_pos {k m : List Char} (a : ModelAgg)
    (rest : List (List Char × ModelAgg)) (h : k = m) :
    aggSum ((k, a) :: rest) m = a.sum := by
  unfold aggSum
  rw [List.find?_cons_of_pos _ (by simp [h])]

lemma aggSum_cons_ne {k m : List Char} (a : ModelAgg)
    (rest : List (List Char × ModelAgg)) (h : ¬k = m) :
    aggSum ((k, a) :: rest) m = aggSum rest m := by
  unfold aggSum
  rw [List.find?_cons_of_neg _ (by simp [h])]

lemma addScore_cons_eq {k key : List Char} (a : ModelAgg)
    (rest : List (List Char × ModelAgg)) (sc : Rat) (h : k = key) :
    addScore ((k, a) :: rest) key sc = (k, ⟨a.tests + 1, a.sum + sc⟩) :: rest := by
  unfold addScore
  rw [if_pos h]

lemma addScore_cons_ne {k key : List Char} (a : ModelAgg)
    (rest : List (List Char × ModelAgg)) (sc : Rat) (h : ¬k = key) :
    addScore ((k, a) :: rest) key sc = (k, a) :: addScore rest key sc := by
  simp only [addScore, if_neg h]

lemma addScore_aggTests (acc : List (List Char × ModelAgg)) (key m : List Char)
    (sc : Rat) :
    aggTests (addScore acc key sc) m =
      aggTests acc m + (if key = m then 1 else 0) := by
  induction acc with
  | nil =>
    show aggTests [(key, ⟨1, sc⟩)] m = aggTests [] m + _
    by_cases h : key = m
    · rw [aggTests_cons_pos _ _ h, aggTests_nil, if_pos h]
    · rw [aggTests_cons_ne _ _ h, aggTests_nil, if_neg h]
  | cons p rest ih =>
    obtain ⟨k, a⟩ := p
    by_cases hk : k = key
    · rw [addScore_cons_eq _ _ _ hk]
      by_cases hm : k = m
      · rw [aggTests_cons_pos _ _ hm, aggTests_cons_pos _ _ hm,
          if_pos (hk.symm.trans hm)]
      · rw [aggTests_cons_ne _ _ hm, aggTests_cons_ne _ _ hm,
          if_neg (fun hh => hm (hk.trans hh)), Nat.add_zero]
    · rw [addScore_cons_ne _ _ _ hk]
      by_cases hm : k = m
      · rw [aggTests_cons_pos _ _ hm, aggTests_cons_pos _ _ hm,
          if_neg (fun hh => hk (hm.trans hh.symm)), Nat.add_zero]
      · rw [aggTests_cons_ne _ _ hm, aggTests_cons_ne _ _ hm, ih]

lemma addScore_aggSum (acc : List (List Char × ModelAgg)) (key m : List Char)
    (sc : Rat) :
    aggSum (addScore acc key sc) m =
      aggSum acc m + (if key = m then sc else 0) := by
  induction acc with
  | nil =>
    show aggSum [(key, ⟨1, sc⟩)] m = aggSum [] m + _
    by_cases h : key = m
    · rw [aggSum_cons_pos _ _ h, aggSum_nil, if_pos h, zero_add]
    · rw [aggSum_cons_ne _ _ h, aggSum_nil, if_neg h, zero_add]
  | cons p rest ih =>
    obtain ⟨k, a⟩ := p
    by_cases hk : k = key
    · rw [addScore_cons_eq _ _ _ hk]
      by_cases hm : k = m
      · rw [aggSum_cons_pos _ _ hm, aggSum_cons_pos _ _ hm,
          if_pos (hk.symm.trans hm)]
      · rw [aggSum_cons_ne _ _ hm, aggSum_cons_ne _ _ hm,
          if_neg (fun hh => hm (hk.trans hh)), add_zero]
    · rw [addScore_cons_ne _ _ _ hk]
      by_cases hm : k = m
      · rw [aggSum_cons_pos _ _ hm, aggSum_cons_pos _ _ hm,
          if_neg (fun hh => hk (hm.trans hh.symm)), add_zero]
      · rw [aggSum_cons_ne _ _ hm, aggSum_cons_ne _ _ hm, ih]

lemma foldl_accum_spec (results : List TestResult)
    (acc : List (List Char × ModelAgg)) (m : List Char) :
    aggTests (results.foldl (fun a r => addScore a r.model r.score) acc) m =
        aggTests acc m + (results.filter (fun r => r.model == m)).length ∧
      aggSum (results.foldl (fun a r => addScore a r.model r.score) acc) m =
        aggSum acc m +
          ((results.filter (fun r => r.model == m)).map (fun r => r.score)).sum := by
  induction results generalizing acc with
  | nil => simp
  | cons r rs ih =>
    simp only [List.foldl_cons, List.filter_cons]
    have h1 := (ih (addScore acc r.model r.score)).1
    have h2 := (ih (addScore acc r.model r.score)).2
    rw [addScore_aggTests] at h1
    rw [addScore_aggSum] at h2
    by_cases hm : r.model = m
    · constructor
      · rw [h1]
        simp [hm]
        omega
      · rw [h2]
        simp [hm]
        ring
    · have hb : (r.model == m) = false := by simp [hm]
      constructor
      · rw [h1]
        simp [hm, hb]
      · rw [h2]
        simp [hm, hb]

lemma aggTests_spec (results : List TestResult) (m : List Char) :
    aggTests (accumByModel results) m =
      (results.filter (fun r => r.model == m)).length := by
  have h := (foldl_accum_spec results [] m).1
  rw [aggTests_nil, zero_add] at h
  exact h

lemma aggSum_spec (results : List TestResult) (m : List Char) :
    aggSum (accumByModel results) m =
      ((results.filter (fun r => r.model == m)).map (fun r => r.score)).sum := by
  have h := (foldl_accum_spec results [] m).2
  rw [aggSum_nil, zero_add] at h
  exact h

lemma foldl_add_scores (l : List TestResult) (a : Rat) :
    l.foldl (fun acc r => acc + r.score) a = a + (l.map (fun r => r.score)).sum := by
  induction l generalizing a with
  | nil => simp
  | cons r rs ih =>
    simp only [List.foldl_cons, List.map_cons, List.sum_cons]
    rw [ih]
    ring

lemma modelAvg_eq (results : List TestResult) (m : List Char) :
    modelAvg results m =
      if aggTests (accumByModel results) m ≠ 0 then
        aggSum (accumByModel results) m / (aggTests (accumByModel results) m : Rat)
      else 0 := by
  unfold modelAvg aggTests aggSum
  cases hf : (accumByModel results).find? (fun p => p.1 == m) with
  | none => simp
  | some p => simp [avgOf]

/-- A minimal result record used for concrete aggregator checks. -/
def exRes (m : List Char) (sc : Rat) : TestResult :=
  { testId := ['t'], model := m, provider_id := ['p'], prompt := [],
    response := [], score := sc, latencyMs := 0, error := none }

/-- The aggregator example from the spec:
results for model A with scores 1 and 0, and model B with score 1/2. -/
def exampleResults : List TestResult :=
  [exRes ['A'] 1, exRes ['A'] 0, exRes ['B'] (1/2)]

/-- Claim C8: `summarize` computes each model's `avgScore` as the arithmetic
mean of that model's scores (0 when the model has none) and `overallAvg` as
the arithmetic mean of all scores (0 for an empty list); on the example list
with model A scoring 1 and 0 and model B scoring 1/2 it yields per-model
averages 1/2 and 1/2 and overall average 1/2; and being a pure function of
the result list, re-running it on the same list yields identical values. -/
theorem summarize_arithmetic_means (results : List TestResult) (m : List Char) :
    (modelAvg results m =
        if (results.filter (fun r => r.model == m)).length = 0 then 0
        else ((results.filter (fun r => r.model == m)).map (fun r => r.score)).sum /
          ((results.filter (fun r => r.model == m)).length : Rat)) ∧
      (overallAvg results =
        if results.length = 0 then 0
        else (results.map (fun r => r.score)).sum / (results.length : Rat)) ∧
      modelAvg exampleResults ['A'] = 1 / 2 ∧
      modelAvg exampleResults ['B'] = 1 / 2 ∧
      overallAvg exampleResults = 1 / 2 ∧
      modelAvg results m = modelAvg results m ∧
      overallAvg results = overallAvg results := by
  refine ⟨?_, ?_,
    by simp [modelAvg, accumByModel, exampleResults, exRes, addScore, avgOf, List.find?],
    by simp [modelAvg, accumByModel, exampleResults, exRes, addScore, avgOf, List.find?],
    by simp [overallAvg, exampleResults, exRes]; norm_num, rfl, rfl⟩
  · rw [modelAvg_eq, aggTests_spec, aggSum_spec]
    by_cases hl : (results.filter (fun r => r.model == m)).length = 0 <;>
      simp [hl]
  · unfold overallAvg
    by_cases hl : results.length = 0 <;> simp [hl, foldl_add_scores]

end Summarize

namespace Trace

/-- The characters the regex `[^a-zA-Z0-9_.-]` of `sanitize` leaves alone. -/
def isSafeChar (c : Char) : Bool :=
  ('a' ≤ c && c ≤ 'z') || ('A' ≤ c && c ≤ 'Z') || ('0' ≤ c && c ≤ '9') ||
    c == '_' || c == '.' || c == '-'

/-- `sanitize`: replace every character outside `[a-zA-Z0-9_.-]` by `_`. -/
def sanitize (s : List Char) : List Char :=
  s.map (fun c => if isSafeChar c then c else '_')

/-- `const isFail = Boolean(r.error) || r.score < 1` (note `Boolean("")` is
`false` in JS, so an empty error message does not by itself flag failure). -/
def isFail (error : Option (List Char)) (score : Rat) : Bool :=
  (match error with
   | some msg => !msg.isEmpty
   | none => false) || decide (score < 1)

/-- The trace file name built by `writeTrace`: sanitized model, double
underscore separator, sanitized test id, the `__FAIL` marker when failing,
and the `.json` suffix. -/
def traceName (model testId : List Char) (failFlag : Bool) : List Char :=
  sanitize model ++ ['_', '_'] ++ sanitize testId ++
    (if failFlag then ['_', '_', 'F', 'A', 'I', 'L'] else []) ++
    ['.', 'j', 's', 'o', 'n']

lemma sanitize_id : ∀ (m : List Char), (∀ c ∈ m, isSafeChar c = true) →
    sanitize m = m := by
  intro m
  induction m with
  | nil => intro _; rfl
  | cons c cs ih =>
    intro h
    show (if isSafeChar c = true then c else '_') :: sanitize cs = c :: cs
    rw [if_pos (h c (List.mem_cons_self c cs)),
      ih (fun x hx => h x (List.mem_cons_of_mem c hx))]

lemma append_sep_inj : ∀ (m1 m2 r1 r2 : List Char), '_' ∉ m1 → '_' ∉ m2 →
    m1 ++ '_' :: r1 = m2 ++ '_' :: r2 → m1 = m2 ∧ r1 = r2 := by
  intro m1
  induction m1 with
  | nil =>
    intro m2 r1 r2 _ hm2 heq
    cases m2 with
    | nil =>
      simp only [List.nil_append, List.cons.injEq] at heq
      exact ⟨rfl, heq.2⟩
    | cons b bs =>
      simp only [List.nil_append, List.cons_append, List.cons.injEq] at heq
      have hb : '_' ∈ b :: bs := by
        rw [heq.1]
        exact List.mem_cons_self b bs
      exact absurd hb hm2
  | cons a as ih =>
    intro m2 r1 r2 hm1 hm2 heq
    cases m2 with
    | nil =>
      simp only [List.nil_append, List.cons_append, List.cons.injEq] at heq
      have ha : '_' ∈ a :: as := by
        rw [← heq.1]
        exact List.mem_cons_self a as
      exact absurd ha hm1
    | cons b bs =>
      simp only [List.cons_append, List.cons.injEq] at heq
      obtain ⟨hab, htail⟩ := heq
      have hn1 : '_' ∉ as := fun hin => hm1 (List.mem_cons_of_mem a hin)
      have hn2 : '_' ∉ bs := fun hin => hm2 (List.mem_cons_of_mem b hin)
      obtain ⟨he, hr⟩ := ih bs r1 r2 hn1 hn2 htail
      exact ⟨by rw [hab, he], hr⟩

/-- Claim C9 counterexample: units (model "a b", test "t") and (model "a_b",
test "t") have distinct (model, testId) pairs and equal status, yet
`writeTrace` builds the same file name for both, because `sanitize` maps the
space and the underscore to the same character. -/
theorem traceName_collision :
    ((['a', ' ', 'b'], ['t']) : List Char × List Char) ≠ (['a', '_', 'b'], ['t']) ∧
      traceName ['a', ' ', 'b'] ['t'] false = traceName ['a', '_', 'b'] ['t'] false := by
  decide

/-- Claim C9 (amended): trace file naming disambiguates by model and test id
on the sanitizer-invariant alphabet without the separator character: when
every character of both units' model and testId strings lies in
[a-zA-Z0-9.-] (so no underscore and nothing `sanitize` rewrites), distinct
(model, testId) pairs with equal pass/fail status receive distinct names;
and — with no restriction — a unit flagged failing always receives a name,
carrying the __FAIL marker, distinct from the name the same unit would
receive when passing, where the failing flag holds iff the error message is
present and nonempty (JS `Boolean` treats the empty string as false) or the
score is below 1. -/
theorem traceName_disambiguates (m1 t1 m2 t2 : List Char) (fl : Bool)
    (h1 : ∀ c ∈ m1, isSafeChar c = true ∧ c ≠ '_')
    (h2 : ∀ c ∈ t1, isSafeChar c = true ∧ c ≠ '_')
    (h3 : ∀ c ∈ m2, isSafeChar c = true ∧ c ≠ '_')
    (h4 : ∀ c ∈ t2, isSafeChar c = true ∧ c ≠ '_')
    (hne : (m1, t1) ≠ (m2, t2)) :
    traceName m1 t1 fl ≠ traceName m2 t2 fl ∧
      (∀ m t : List Char, traceName m t true ≠ traceName m t false) ∧
      (∀ (err : Option (List Char)) (sc : Rat), isFail err sc = true ↔
        ((∃ msg, err = some msg ∧ msg ≠ []) ∨ sc < 1)) := by
  refine ⟨?_, ?_, ?_⟩
  · intro heq
    unfold traceName at heq
    rw [sanitize_id m1 (fun c hc => (h1 c hc).1),
      sanitize_id t1 (fun c hc => (h2 c hc).1),
      sanitize_id m2 (fun c hc => (h3 c hc).1),
      sanitize_id t2 (fun c hc => (h4 c hc).1)] at heq
    simp only [List.append_assoc, List.cons_append, List.nil_append] at heq
    have hu1 : '_' ∉ m1 := fun hin => (h1 '_' hin).2 rfl
    have hu2 : '_' ∉ m2 := fun hin => (h3 '_' hin).2 rfl
    obtain ⟨hm, ht⟩ := append_sep_inj m1 m2 _ _ hu1 hu2 heq
    simp only [List.cons.injEq, true_and] at ht
    have ht2 := List.append_cancel_right ht
    exact hne (by rw [hm, ht2])
  · intro m t heq
    have hlen := congrArg List.length heq
    simp [traceName, sanitize, List.length_append] at hlen
  · intro err sc
    cases err <;> simp [isFail, List.isEmpty_iff]

theorem traceName_disambiguates_witness :
    traceName ['a'] ['t'] false ≠ traceName ['b'] ['t'] false ∧
      traceName ['a'] ['t'] true ≠ traceName ['a'] ['t'] false ∧
      isFail (some ['e']) 1 = true :=
  ⟨(traceName_disambiguates ['a'] ['t'] ['b'] ['t'] false (by decide) (by decide)
      (by decide) (by decide) (by decide)).1,
   (traceName_disambiguates ['a'] ['t'] ['b'] ['t'] false (by decide) (by decide)
      (by decide) (by decide) (by decide)).2.1 ['a'] ['t'],
   ((traceName_disambiguates ['a'] ['t'] ['b'] ['t'] false (by decide) (by decide)
      (by decide) (by decide) (by decide)).2.2 (some ['e']) 1).mpr
     (Or.inl ⟨['e'], rfl, by decide⟩)⟩

end Trace
